import Mathlib

/-!
Shallow embedding of the gth-xp ledger and its off-chain tooling.

The on-chain part embeds the FunC contract `contracts/xp.fc`
(`recv_internal`, storage helpers and the get methods).  Addresses are
modelled as natural numbers standing for the address slice; the TVM cell
hash used by `slice_hash` is passed in as an explicit function `hash`
(the contract only ever compares and keys by hashes).  The storage
dictionary is modelled as an association list from 256-bit keys to
64-bit values.  A throwing exit of the compute phase leaves the
persistent storage unchanged, which the trace semantics below makes
explicit.

The off-chain part embeds the TypeScript wrapper `wrappers/XPContract.ts`
(deploy data layout, `sendAddXP` body construction, getter decoding) and
the reconciliation flow of `scripts/add-xp.ts` (poll loops, the single
escalated retry, audit rows), with the network modelled as an oracle
supplying the outcome of each `getXP` poll and the opId generator
modelled as a supply of draws.
-/

deriving instance DecidableEq for Except

/-- Opcode of the only operation the FunC contract dispatches on. -/
def OP_ADD_XP : Nat := 0x1234

/-- Opcode used by the wrapper when an opId is attached (`xp.fc` never
matches on it). -/
def OP_ADD_XP_WITH_ID : Nat := 0x5678

/-- Upgrade opcode declared by the wrapper (`xp.fc` never matches on it). -/
def OP_UPGRADE : Nat := 0x8765

/-- Contract version constant of `xp.fc`. -/
def CONTRACT_VERSION : Nat := 1

/-- Error code thrown when the sender is not the stored owner. -/
def ERR_NOT_OWNER : Nat := 401

/-- Error code thrown when the new balance would overflow 64 bits. -/
def ERR_OVERFLOW : Nat := 402

/-- Error code thrown when the global cooldown has not elapsed. -/
def ERR_TOO_SOON : Nat := 403

/-- Cooldown in seconds (`MIN_TIMEOUT` in `xp.fc`). -/
def MIN_TIMEOUT : Int := 60

/-- Maximum value of an unsigned 64-bit integer, as written in `xp.fc`. -/
def U64_MAX : Nat := 18446744073709551615

/-- Lookup in the balance dictionary (`udict_get?` on 256-bit keys):
first entry with the given key, if any. -/
def dictGet : List (Nat × Nat) → Nat → Option Nat
  | [], _ => none
  | (k, v) :: rest, key => if k = key then some v else dictGet rest key

/-- Update in the balance dictionary (`udict_set_builder`): replace the
entry with the given key, or append a fresh one. -/
def dictSet : List (Nat × Nat) → Nat → Nat → List (Nat × Nat)
  | [], key, v => [(key, v)]
  | (k, w) :: rest, key, v =>
      if k = key then (key, v) :: rest else (k, w) :: dictSet rest key v

/-- Persistent storage of the contract as `_load_state` parses it:
owner address slice (`none` models the empty slice obtained from empty
storage), a 16-bit version, a 32-bit last-operation timestamp and the
balance dictionary. -/
structure Storage where
  owner : Option Nat
  version : Nat
  last_op_time : Int
  balances : List (Nat × Nat)
deriving DecidableEq, Repr

/-- Parse the raw storage cell as `_load_state` does; empty storage
yields an empty owner slice, `CONTRACT_VERSION`, time 0 and an empty
dictionary. -/
def load_state : Option Storage → Storage
  | none => { owner := none, version := CONTRACT_VERSION, last_op_time := 0, balances := [] }
  | some s => s

/-- Serialize storage as `_store_state` does.  `store_uint` range-checks
its argument, so a version outside 16 bits or a timestamp outside 32
bits aborts with the TVM range-check error (exit code 5). -/
def store_state (owner : Nat) (ver : Nat) (last : Int) (dict : List (Nat × Nat)) :
    Except Nat Storage :=
  if ver < 2 ^ 16 ∧ 0 ≤ last ∧ last < 2 ^ 32 then
    .ok { owner := some owner, version := ver, last_op_time := last, balances := dict }
  else
    .error 5

/-- Inbound message body.  `short op` is a non-empty body whose data
ends right after the 32-bit opcode — fewer than the 4 further bits the
unconditional flags read consumes (the wrapper's Upgrade message, a
bare `storeUint(0x8765, 32)` plus a reference, has this shape).
`more op user amount` is a non-empty body carrying the 32-bit opcode
`op` followed by the 4 flag bits; the `user` and `amount` fields model
the remainder of the body, which `recv_internal` reads only when
`op = OP_ADD_XP`. -/
inductive Body
  | empty
  | short (op : Nat)
  | more (op : Nat) (user : Nat) (amount : Nat)
deriving DecidableEq, Repr

/-- The contract entry point `recv_internal` of `xp.fc`, as a function
from the current raw storage, the block time and the parsed message to
either a throw code or the new raw storage.

On an empty body the contract tests `slice_bits(owner)`; on empty
storage the loaded owner is the `null` value and `slice_bits` raises
the TVM type-check exception (exit code 7) before the init store
runs — the `_store_state(sender, CONTRACT_VERSION, 0, dict)` branch is
dead code — while on initialized storage (a parsed address slice has
positive bit length) the message is a no-op.  A non-empty body first
undergoes the unconditional opcode and 4-bit flags loads: a body whose
data ends after the opcode underflows at the flags load (cell
underflow, exit code 9) whatever its opcode.  Otherwise the body is
dispatched on its opcode: only `OP_ADD_XP` is handled (checks in
source order: owner hash — where hashing the `null` owner of empty
storage again raises exit code 7 — then cooldown, 64-bit overflow, and
store); every other opcode falls through to the end of the function
without touching storage. -/
def recv_internal (hash : Nat → Nat) (raw : Option Storage) (now : Int)
    (sender : Nat) (body : Body) : Except Nat (Option Storage) :=
  match body with
  | .empty =>
      match (load_state raw).owner with
      | none => .error 7
      | some _ => .ok raw
  | .short _ => .error 9
  | .more op user amount =>
      if op = OP_ADD_XP then
        let st := load_state raw
        match st.owner with
        | none => .error 7
        | some ow =>
            if hash sender = hash ow then
              if st.last_op_time > 0 ∧ ¬ (now - st.last_op_time ≥ MIN_TIMEOUT) then
                .error ERR_TOO_SOON
              else
                let key := hash user
                let old_xp := (dictGet st.balances key).getD 0
                let new_xp := old_xp + amount
                if ¬ (new_xp ≥ old_xp) then .error ERR_OVERFLOW
                else if ¬ (new_xp ≤ U64_MAX) then .error ERR_OVERFLOW
                else
                  match store_state ow st.version now (dictSet st.balances key new_xp) with
                  | .ok s => .ok (some s)
                  | .error e => .error e
            else
              .error ERR_NOT_OWNER
      else
        .ok raw

/-- Get-method argument slice: empty, a parsable address, or a slice
whose address parse throws (the throw is caught inside `get_xp`). -/
inductive GetArg
  | empty
  | addr (a : Nat)
  | malformed
deriving DecidableEq, Repr

/-- The `get_xp` get method: 0 on an empty argument slice, 0 when the
argument fails to parse (the `catch` branch), 0 when the key is absent,
otherwise the stored 64-bit balance. -/
def get_xp (hash : Nat → Nat) (raw : Option Storage) : GetArg → Nat
  | .empty => 0
  | .malformed => 0
  | .addr a => (dictGet (load_state raw).balances (hash a)).getD 0

/-- The `get_level` get method: throws 301 on negative input, else the
threshold ladder. -/
def get_level (xp : Int) : Except Nat Int :=
  if xp ≥ 0 then
    .ok (if xp < 100 then 0 else if xp < 250 then 1 else if xp < 500 then 2 else 3)
  else
    .error 301

/-- The `get_reputation` get method: throws 310 unless all four inputs
are non-negative, then the affine score with FunC division (which
rounds toward negative infinity), clamped into `[0, 100]`. -/
def get_reputation (xp d r bw : Int) : Except Nat Int :=
  if xp ≥ 0 ∧ d ≥ 0 ∧ r ≥ 0 ∧ bw ≥ 0 then
    let score := Int.fdiv xp 10 + d * 2 + r * 5 - bw * 10 + 18
    let score := if score < 0 then 0 else score
    let score := if score > 100 then 100 else score
    .ok score
  else
    .error 310

/-- Balance a user hash key currently has (0 when absent or before
initialization), matching `get_xp_by_key`. -/
def balanceOf (raw : Option Storage) (key : Nat) : Nat :=
  match raw with
  | none => 0
  | some st => (dictGet st.balances key).getD 0

/-- One inbound message event: the block time passed to `now()`, the
sender parsed from the message cell, and the parsed body. -/
structure Event where
  now : Int
  sender : Nat
  body : Body
deriving DecidableEq, Repr

/-- Storage after one transaction: a throwing compute phase rolls the
persistent storage back, a normal exit commits it. -/
def nextState (hash : Nat → Nat) (raw : Option Storage) (e : Event) : Option Storage :=
  match recv_internal hash raw e.now e.sender e.body with
  | .ok raw' => raw'
  | .error _ => raw

/-- Storage after a sequence of inbound messages. -/
def execState (hash : Nat → Nat) (raw : Option Storage) : List Event → Option Storage
  | [] => raw
  | e :: rest => execState hash (nextState hash raw e) rest

/-- Whether an event is an AddXP message that the contract accepts
(non-throwing compute phase) in the given storage. -/
def acceptsAddXP (hash : Nat → Nat) (raw : Option Storage) (e : Event) : Bool :=
  match e.body with
  | .more op _ _ =>
      (op == OP_ADD_XP) &&
        (match recv_internal hash raw e.now e.sender e.body with
         | .ok _ => true
         | .error _ => false)
  | _ => false

/-- Block times of the accepted AddXP writes along a message sequence. -/
def acceptedTimes (hash : Nat → Nat) (raw : Option Storage) : List Event → List Int
  | [] => []
  | e :: rest =>
      if acceptsAddXP hash raw e then
        e.now :: acceptedTimes hash (nextState hash raw e) rest
      else
        acceptedTimes hash (nextState hash raw e) rest

/-- Deploy-time storage root as `XPContract.createForDeploy` builds it:
owner address, a 16-bit version, a 64-bit `last_op_time`, the balance
dictionary and the nested per-user history dictionary. -/
structure DeployData where
  owner : Nat
  version : Nat
  last_op_time : Nat
  balances : List (Nat × Nat)
  history : List (Nat × List (Nat × Nat))
deriving DecidableEq, Repr

/-- The data cell of `createForDeploy(code, owner)`: the owner address,
`storeUint(4, 16)`, `storeUint(0, 64)` and the two empty dictionaries. -/
def createForDeploy (owner : Nat) : DeployData :=
  { owner := owner
    version := 4
    last_op_time := 0
    balances := []
    history := [] }

/-- Body cell built by `XPContract.sendAddXP`: opcode, 4 zero flag bits,
user address, 64-bit amount, and the 256-bit opId iff it was stored. -/
structure AddXPBody where
  opcode : Nat
  flags : Nat
  user : Nat
  amount : Nat
  opId : Option Nat
deriving DecidableEq, Repr

/-- JavaScript truthiness of the optional `opId` argument (`undefined`
and `0n` are falsy, every other bigint is truthy). -/
def jsTruthy : Option Nat → Bool
  | none => false
  | some n => n ≠ 0

/-- The message body `sendAddXP` builds: the opcode is selected by the
truthiness of `options.opId`, and the opId field is appended under the
same truthiness test. -/
def sendAddXPBody (user : Nat) (amount : Nat) (opId : Option Nat) : AddXPBody :=
  { opcode := if jsTruthy opId then OP_ADD_XP_WITH_ID else OP_ADD_XP
    flags := 0
    user := user
    amount := amount
    opId := if jsTruthy opId then opId else none }

/-- One item of the stack a get query returns to the client. -/
inductive StackItem
  | int (n : Int)
  | cell (c : Nat)
  | tvmNull
deriving DecidableEq, Repr

/-- `TupleReader.readBigNumber`: the top stack item must be an integer,
anything else raises a decode error. -/
def readBigNumber : List StackItem → Except String Int
  | .int n :: _ => .ok n
  | _ => .error "DecodeError"

/-- `TupleReader.readCell`: the top stack item must be a cell, anything
else raises a decode error. -/
def readCell : List StackItem → Except String Nat
  | .cell c :: _ => .ok c
  | _ => .error "DecodeError"

/-- Client getter `getXP`: decodes the response stack with
`readBigNumber` and lets any decode failure propagate. -/
def clientGetXP (stack : List StackItem) : Except String Int :=
  readBigNumber stack

/-- Client getter `getUserHistory`: wraps `readCell` in `try`/`catch`
and returns `null` whenever the read throws. -/
def clientGetUserHistory (stack : List StackItem) : Option Nat :=
  match readCell stack with
  | .ok c => some c
  | .error _ => none

/-- Value in nanotons that `sendAddXP` attaches to every message
(`toNano` of 0.2). -/
def SEND_VALUE : Nat := 200000000

/-- Extra value the retry path adds through `createHighGasSender`
(`toNano` of 0.1). -/
def EXTRA_GAS : Nat := 100000000

/-- Outcome of one `getXP` poll inside a verification loop: a returned
balance or a thrown error (which the loop catches and keeps polling). -/
inductive PollRes
  | val (x : Int)
  | err
deriving DecidableEq, Repr

/-- The balance-verification loop of `scripts/add-xp.ts`: up to `n`
checks, stopping at the first polled balance strictly above `beforeXP`;
a poll error is caught and consumes one check. -/
def pollLoop (beforeXP : Int) : Nat → List PollRes → Option Int
  | 0, _ => none
  | _ + 1, [] => none
  | n + 1, c :: rest =>
      match c with
      | .val x => if beforeXP < x then some x else pollLoop beforeXP n rest
      | .err => pollLoop beforeXP n rest

/-- One message submission the engine performs: the opId it carried,
the amount, and the attached value in nanotons. -/
structure Submission where
  opId : Nat
  amount : Nat
  value : Nat
deriving DecidableEq, Repr

/-- Audit row the engine appends for one processed user. -/
structure TxRow where
  opId : Nat
  amount : Nat
  status : String
deriving DecidableEq, Repr

/-- Oracle inputs for processing one target user: the stream of opId
draws (`generateOpId` results, in order) and the outcomes of the two
balance-verification loops. -/
structure UserEnv where
  opIds : Nat → Nat
  beforeXP : Int
  poll1 : List PollRes
  poll2 : List PollRes

/-- The per-user flow of `scripts/add-xp.ts` after the user row is
saved: submit AddXP with the first opId draw and the default attached
value, verify the balance with up to 15 checks; on deadline, submit
exactly one retry with a fresh opId draw through the high-gas sender
and verify with up to 10 checks; finally append one audit row whose
status reflects whether an increase was observed, carrying the opId
last used. -/
def processUser (env : UserEnv) : List Submission × List TxRow :=
  let op1 := env.opIds 0
  let sub1 : Submission := { opId := op1, amount := 1, value := SEND_VALUE }
  match pollLoop env.beforeXP 15 env.poll1 with
  | some _ => ([sub1], [{ opId := op1, amount := 1, status := "success" }])
  | none =>
      let op2 := env.opIds 1
      let sub2 : Submission := { opId := op2, amount := 1, value := SEND_VALUE + EXTRA_GAS }
      match pollLoop env.beforeXP 10 env.poll2 with
      | some _ => ([sub1, sub2], [{ opId := op2, amount := 1, status := "success" }])
      | none => ([sub1, sub2], [{ opId := op2, amount := 1, status := "failed" }])

/-- The batch loop: each target user is processed in turn and its
submissions and audit rows are appended; a user whose retry fails does
not stop the batch. -/
def runBatch : List UserEnv → List Submission × List TxRow
  | [] => ([], [])
  | env :: rest =>
      let r := processUser env
      let rs := runBatch rest
      (r.1 ++ rs.1, r.2 ++ rs.2)

/-- Reputation formula exactly as the specification words it:
`clamp(0, 100, xp/10 + daysActive*2 + rating*5 - behaviorWeight*10 + 18)`
with integer division truncating toward zero. -/
def reputationSpec (xp d r bw : Int) : Int :=
  max 0 (min 100 (Int.tdiv xp 10 + d * 2 + r * 5 - bw * 10 + 18))

/-- A concrete initialized storage used to instantiate theorems. -/
def exStorage : Storage :=
  { owner := some 1, version := 1, last_op_time := 0, balances := [(5, 7)] }


theorem dictGet_dictSet (d : List (Nat × Nat)) (k v : Nat) :
    dictGet (dictSet d k v) k = some v := by
  induction d with
  | nil => simp [dictSet, dictGet]
  | cons p rest ih =>
      obtain ⟨k', w⟩ := p
      by_cases h : k' = k
      · subst h
        simp [dictSet, dictGet]
      · simp [dictSet, dictGet, h, ih]

theorem tdiv_eq_fdiv_of_nonneg (a : Int) (h : 0 ≤ a) :
    Int.tdiv a 10 = Int.fdiv a 10 := by
  obtain ⟨n, rfl⟩ := Int.eq_ofNat_of_zero_le h
  cases n <;> rfl

theorem clamp_seq_eq_max_min (s : Int) :
    (if (if s < 0 then 0 else s) > 100 then 100 else (if s < 0 then 0 else s)) =
      max 0 (min 100 s) := by
  split_ifs <;> omega

/-- C5: for non-negative inputs `get_reputation` computes the clamped
affine score of the specification (with truncating division agreeing
with the contract's flooring division on non-negative operands), the
five documented sample values hold, and any negative input throws the
implementation-local `InvalidArgument` code 310. -/
theorem c5_get_reputation_formula (xp d r bw : Int) :
    (0 ≤ xp → 0 ≤ d → 0 ≤ r → 0 ≤ bw →
      get_reputation xp d r bw = .ok (reputationSpec xp d r bw)) ∧
    (xp < 0 ∨ d < 0 ∨ r < 0 ∨ bw < 0 →
      get_reputation xp d r bw = .error 310) ∧
    get_reputation 0 0 0 0 = .ok 18 ∧
    get_reputation 100 0 0 0 = .ok 28 ∧
    get_reputation 100 5 1 0 = .ok 43 ∧
    get_reputation 500 10 5 5 = .ok 63 ∧
    get_reputation 1000 20 10 10 = .ok 100 := by
  refine ⟨?_, ?_, by decide, by decide, by decide, by decide, by decide⟩
  · intro hxp hd hr hbw
    unfold get_reputation reputationSpec
    rw [if_pos ⟨hxp, hd, hr, hbw⟩, tdiv_eq_fdiv_of_nonneg xp hxp]
    exact congrArg Except.ok (clamp_seq_eq_max_min _)
  · intro hneg
    unfold get_reputation
    rw [if_neg (by omega)]

/-- C5 witness: the general formula applied at (500, 10, 5, 5). -/
theorem c5_get_reputation_formula_witness :
    get_reputation 500 10 5 5 = .ok (reputationSpec 500 10 5 5) :=
  (c5_get_reputation_formula 500 10 5 5).1 (by decide) (by decide) (by decide) (by decide)

/-- C6: for non-negative xp, `get_level` follows the documented
thresholds, and the six boundary values land exactly as specified. -/
theorem c6_get_level_thresholds (xp : Int) (h : 0 ≤ xp) :
    (xp < 100 → get_level xp = .ok 0) ∧
    (100 ≤ xp ∧ xp < 250 → get_level xp = .ok 1) ∧
    (250 ≤ xp ∧ xp < 500 → get_level xp = .ok 2) ∧
    (500 ≤ xp → get_level xp = .ok 3) ∧
    get_level 99 = .ok 0 ∧ get_level 100 = .ok 1 ∧
    get_level 249 = .ok 1 ∧ get_level 250 = .ok 2 ∧
    get_level 499 = .ok 2 ∧ get_level 500 = .ok 3 := by
  refine ⟨?_, ?_, ?_, ?_, by decide, by decide, by decide, by decide, by decide, by decide⟩ <;>
    · intro hr
      unfold get_level
      rw [if_pos (by omega)]
      congr 1
      split_ifs <;> omega

/-- C6 witness: the threshold theorem applied at xp = 250. -/
theorem c6_get_level_thresholds_witness :
    (0 : Int) ≤ 250 ∧ ((250 : Int) ≤ 250 ∧ (250 : Int) < 500 → get_level 250 = .ok 2) :=
  ⟨by decide, (c6_get_level_thresholds 250 (by decide)).2.2.1⟩

/-- C10: passing opId = 0 to `sendAddXP` builds the very same body as
passing no opId at all — the plain AddXP opcode and no opId field —
because the variant is chosen by JavaScript truthiness. -/
theorem c10_zero_opId_indistinguishable (user amount : Nat) :
    sendAddXPBody user amount (some 0) = sendAddXPBody user amount none ∧
    (sendAddXPBody user amount (some 0)).opcode = OP_ADD_XP ∧
    (sendAddXPBody user amount (some 0)).opId = none :=
  ⟨rfl, rfl, rfl⟩

/-- C7 counterexample: the deploy-time storage root built by
`createForDeploy` carries version 4, not version 1 as claimed. -/
theorem c7_counterexample :
    (createForDeploy 0).version = 4 ∧ ¬ (createForDeploy 0).version = 1 := by
  decide

/-- C7 amended: the deploy-time root has owner set to the deploying
party, version 4, last_op_time 0 and empty balance and history maps;
the contract-side implicit initialization is unreachable (an
empty-body message on empty storage aborts with the TVM type-check
exit 7 when `slice_bits` hits the null owner), so the deploy data cell
is the only initial root. -/
theorem c7_deploy_root (owner sender : Nat) (hash : Nat → Nat) (now : Int) :
    (createForDeploy owner).owner = owner ∧
    (createForDeploy owner).version = 4 ∧
    (createForDeploy owner).last_op_time = 0 ∧
    (createForDeploy owner).balances = [] ∧
    (createForDeploy owner).history = [] ∧
    recv_internal hash none now sender .empty = .error 7 :=
  ⟨rfl, rfl, rfl, rfl, rfl, rfl⟩

/-- C8 counterexample: a non-empty message with the undefined opcode
0x9999 is not rejected with InvalidOp 404; the compute phase exits
normally and storage is unchanged. -/
theorem c8_counterexample :
    recv_internal (fun a => a) (some exStorage) 1000 1 (.more 0x9999 0 0) =
      .ok (some exStorage) ∧
    ∀ e : Nat, recv_internal (fun a => a) (some exStorage) 1000 1 (.more 0x9999 0 0) ≠
      .error e := by
  refine ⟨by decide, ?_⟩
  intro e h
  rw [show recv_internal (fun a => a) (some exStorage) 1000 1 (.more 0x9999 0 0) =
        .ok (some exStorage) from by decide] at h
  exact Except.noConfusion h

/-- C8 amended: no message is ever rejected with InvalidOp 404.  A
non-empty body whose opcode differs from AddXP (0x1234) and which
still carries the 4 flag bits is silently ignored: the transaction
succeeds and storage is unchanged.  A body whose data ends right after
the 32-bit opcode — the shape of the wrapper's Upgrade (0x8765)
message — aborts with cell underflow (exit 9) at the unconditional
flags read, whatever its opcode; the contract defines no InvalidOp
code. -/
theorem c8_unknown_opcode_ignored (hash : Nat → Nat) (raw : Option Storage)
    (now : Int) (sender user amount op op2 : Nat) (h : op ≠ OP_ADD_XP) :
    recv_internal hash raw now sender (.more op user amount) = .ok raw ∧
    recv_internal hash raw now sender (.short op2) = .error 9 ∧
    recv_internal hash raw now sender (.short OP_UPGRADE) = .error 9 := by
  refine ⟨by simp [recv_internal, h], rfl, rfl⟩

/-- C8 witness: the amended theorem applied to the AddXPWithId opcode
and to the Upgrade opcode in the wrapper's 32-bit body shape. -/
theorem c8_unknown_opcode_ignored_witness :
    (0x5678 : Nat) ≠ OP_ADD_XP ∧
    (recv_internal (fun a => a) (some exStorage) 1000 1 (.more 0x5678 0 0) =
        .ok (some exStorage) ∧
      recv_internal (fun a => a) (some exStorage) 1000 1 (.short 0x8765) = .error 9 ∧
      recv_internal (fun a => a) (some exStorage) 1000 1 (.short OP_UPGRADE) = .error 9) :=
  ⟨by decide, c8_unknown_opcode_ignored (fun a => a) (some exStorage) 1000 1 0 0
    0x5678 0x8765 (by decide)⟩

/-- C9 counterexample: a malformed response (an integer where the
history cell is expected) makes `getUserHistory` silently return null
rather than fail with a decode error, and the ledger-side `get_xp`
returns the default 0 when its argument slice is malformed. -/
theorem c9_counterexample :
    clientGetUserHistory [StackItem.int 3] = none ∧
    get_xp (fun a => a) (some exStorage) .malformed = 0 := by
  decide

/-- C9 amended: getters decoding through `readBigNumber` (such as
`getXP`) propagate a decode error on every malformed response shape,
but `getUserHistory` maps every undecodable response to null — so an
empty history and a malformed response are indistinguishable — and the
ledger-side `get_xp` answers 0, not an error, on an empty or malformed
argument slice. -/
theorem c9_getter_decoding (n : Int) (c : Nat) (rest : List StackItem)
    (hash : Nat → Nat) (raw : Option Storage) (a : Nat) :
    clientGetXP (.int n :: rest) = .ok n ∧
    clientGetXP (.cell c :: rest) = .error "DecodeError" ∧
    clientGetXP (.tvmNull :: rest) = .error "DecodeError" ∧
    clientGetXP [] = .error "DecodeError" ∧
    clientGetUserHistory (.cell c :: rest) = some c ∧
    clientGetUserHistory (.int n :: rest) = none ∧
    clientGetUserHistory (.tvmNull :: rest) = none ∧
    clientGetUserHistory [] = none ∧
    get_xp hash raw .empty = 0 ∧
    get_xp hash raw .malformed = 0 ∧
    get_xp hash raw (.addr a) = balanceOf raw (hash a) := by
  refine ⟨rfl, rfl, rfl, rfl, rfl, rfl, rfl, rfl, rfl, rfl, ?_⟩
  cases raw <;> rfl

theorem recv_addXP_eval (hash : Nat → Nat) (st : Storage) (o : Nat) (now : Int)
    (sender user amount : Nat) (how : st.owner = some o) :
    recv_internal hash (some st) now sender (.more OP_ADD_XP user amount) =
      if hash sender = hash o then
        if st.last_op_time > 0 ∧ ¬ (now - st.last_op_time ≥ MIN_TIMEOUT) then
          .error ERR_TOO_SOON
        else if ¬ ((dictGet st.balances (hash user)).getD 0 + amount ≤ U64_MAX) then
          .error ERR_OVERFLOW
        else
          match store_state o st.version now
              (dictSet st.balances (hash user)
                ((dictGet st.balances (hash user)).getD 0 + amount)) with
          | .ok s => .ok (some s)
          | .error e => .error e
      else .error ERR_NOT_OWNER := by
  simp only [recv_internal, load_state, how,
    if_neg (not_not_intro (Nat.le_add_right ((dictGet st.balances (hash user)).getD 0) amount))]
  rw [if_pos trivial]

/-- C1: an AddXP message whose sender hashes differently from the
stored owner is rejected with NotOwner (401), the transaction rolls
back, and every user's balance is unchanged. -/
theorem c1_nonowner_rejected (hash : Nat → Nat) (st : Storage) (o : Nat) (now : Int)
    (sender user amount : Nat)
    (how : st.owner = some o) (hne : hash sender ≠ hash o) :
    recv_internal hash (some st) now sender (.more OP_ADD_XP user amount) =
      .error ERR_NOT_OWNER ∧
    nextState hash (some st) ⟨now, sender, .more OP_ADD_XP user amount⟩ = some st ∧
    ∀ k, balanceOf (nextState hash (some st) ⟨now, sender, .more OP_ADD_XP user amount⟩) k =
      balanceOf (some st) k := by
  have hrecv : recv_internal hash (some st) now sender (.more OP_ADD_XP user amount) =
      .error ERR_NOT_OWNER := by
    rw [recv_addXP_eval hash st o now sender user amount how, if_neg hne]
  refine ⟨hrecv, ?_, ?_⟩
  · simp [nextState, hrecv]
  · intro k
    simp [nextState, hrecv]

/-- C1 witness: a sender whose identity hash is 2 against a stored
owner hashing to 1 is rejected with 401. -/
theorem c1_nonowner_rejected_witness :
    exStorage.owner = some 1 ∧ ((fun a => a) 2 ≠ (fun a => a) 1) ∧
    recv_internal (fun a => a) (some exStorage) 50 2 (.more OP_ADD_XP 5 3) =
      .error ERR_NOT_OWNER :=
  ⟨rfl, by decide,
    (c1_nonowner_rejected (fun a => a) exStorage 1 50 2 5 3 rfl (by decide)).1⟩

/-- C2: for an owner-sent AddXP outside the cooldown, writing to the
key hash(user) with current balance `old`: if `old + amount` exceeds
2^64 - 1 the transaction throws Overflow (402) and every balance is
unchanged, and otherwise the overflow branch is not taken and the
stored balance under hash(user) becomes exactly `old + amount`. -/
theorem c2_overflow_guard (hash : Nat → Nat) (st : Storage) (o : Nat) (now : Int)
    (sender user amount : Nat)
    (how : st.owner = some o) (hsend : hash sender = hash o)
    (hcool : st.last_op_time ≤ 0 ∨ MIN_TIMEOUT ≤ now - st.last_op_time)
    (hver : st.version < 2 ^ 16) (hnow0 : 0 ≤ now) (hnow1 : now < 2 ^ 32) :
    (U64_MAX < balanceOf (some st) (hash user) + amount →
        recv_internal hash (some st) now sender (.more OP_ADD_XP user amount) =
          .error ERR_OVERFLOW ∧
        ∀ k, balanceOf (nextState hash (some st) ⟨now, sender, .more OP_ADD_XP user amount⟩) k =
          balanceOf (some st) k) ∧
    (balanceOf (some st) (hash user) + amount ≤ U64_MAX →
        ∃ st', recv_internal hash (some st) now sender (.more OP_ADD_XP user amount) =
            .ok (some st') ∧
          balanceOf (some st') (hash user) = balanceOf (some st) (hash user) + amount) := by
  have hbal : balanceOf (some st) (hash user) = (dictGet st.balances (hash user)).getD 0 := rfl
  constructor
  · intro hgt
    have hrecv : recv_internal hash (some st) now sender (.more OP_ADD_XP user amount) =
        .error ERR_OVERFLOW := by
      rw [recv_addXP_eval hash st o now sender user amount how, if_pos hsend,
        if_neg (by omega), if_pos (by rw [hbal] at hgt; omega)]
    refine ⟨hrecv, fun k => ?_⟩
    simp [nextState, hrecv]
  · intro hle
    have hst : store_state o st.version now
        (dictSet st.balances (hash user) ((dictGet st.balances (hash user)).getD 0 + amount)) =
        .ok { owner := some o, version := st.version, last_op_time := now,
              balances := dictSet st.balances (hash user)
                ((dictGet st.balances (hash user)).getD 0 + amount) } := by
      unfold store_state
      rw [if_pos ⟨hver, hnow0, hnow1⟩]
    refine ⟨{ owner := some o, version := st.version, last_op_time := now,
              balances := dictSet st.balances (hash user)
                ((dictGet st.balances (hash user)).getD 0 + amount) }, ?_, ?_⟩
    · rw [recv_addXP_eval hash st o now sender user amount how, if_pos hsend,
        if_neg (by omega), if_neg (by rw [hbal] at hle; omega), hst]
    · simp only [balanceOf, dictGet_dictSet, Option.getD_some]

/-- C2 witness: adding 3 to a stored balance of 7 under the owner,
outside the cooldown, stores exactly 10. -/
theorem c2_overflow_guard_witness :
    balanceOf (some exStorage) 5 + 3 ≤ U64_MAX ∧
    (∃ st', recv_internal (fun a => a) (some exStorage) 50 1 (.more OP_ADD_XP 5 3) =
        .ok (some st') ∧
      balanceOf (some st') 5 = balanceOf (some exStorage) 5 + 3) :=
  ⟨by decide,
    (c2_overflow_guard (fun a => a) exStorage 1 50 1 5 3 rfl rfl (Or.inl (by decide))
      (by decide) (by decide) (by decide)).2 (by decide)⟩

theorem pollLoop_eq_take (b : Int) (n : Nat) (l : List PollRes) :
    pollLoop b n l = pollLoop b n (l.take n) := by
  induction n generalizing l with
  | zero => rfl
  | succ n ih =>
      cases l with
      | nil => rfl
      | cons c rest =>
          cases c with
          | val x =>
              simp only [pollLoop, List.take_succ_cons]
              by_cases h : b < x
              · rw [if_pos h, if_pos h]
              · rw [if_neg h, if_neg h, ih]
          | err =>
              simp only [pollLoop, List.take_succ_cons]
              exact ih rest

theorem pollLoop_eq_none (b : Int) (n : Nat) (l : List PollRes)
    (h : ∀ x : Int, PollRes.val x ∈ l.take n → x ≤ b) :
    pollLoop b n l = none := by
  induction n generalizing l with
  | zero => rfl
  | succ n ih =>
      cases l with
      | nil => rfl
      | cons c rest =>
          cases c with
          | val x =>
              have hx : x ≤ b := h x (by simp [List.take_succ_cons])
              simp only [pollLoop]
              rw [if_neg (by omega)]
              exact ih rest (fun y hy => h y (by simp [List.take_succ_cons, hy]))
          | err =>
              simp only [pollLoop]
              exact ih rest (fun y hy => h y (by simp [List.take_succ_cons, hy]))

/-- C4: when the first verification deadline (15 checks) passes with no
polled balance above the snapshot, the engine performs exactly one
retry submission with the next opId draw (fresh by the distinctness of
the draws) and a strictly larger attached value, verifies with the
shorter 10-check deadline (both loops provably ignore polls beyond
their deadline), and if that also observes no increase it appends
exactly one failed audit row carrying the retry opId; the batch then
continues with the remaining users. -/
theorem c4_escalated_retry (env : UserEnv) (rest : List UserEnv)
    (hfresh : env.opIds 1 ≠ env.opIds 0)
    (h1 : ∀ x : Int, PollRes.val x ∈ env.poll1.take 15 → x ≤ env.beforeXP)
    (h2 : ∀ x : Int, PollRes.val x ∈ env.poll2.take 10 → x ≤ env.beforeXP) :
    processUser env =
      ([{ opId := env.opIds 0, amount := 1, value := SEND_VALUE },
        { opId := env.opIds 1, amount := 1, value := SEND_VALUE + EXTRA_GAS }],
       [{ opId := env.opIds 1, amount := 1, status := "failed" }]) ∧
    ((processUser env).1.map Submission.opId).Nodup ∧
    SEND_VALUE < SEND_VALUE + EXTRA_GAS ∧
    processUser env =
      processUser { env with poll1 := env.poll1.take 15, poll2 := env.poll2.take 10 } ∧
    (runBatch (env :: rest)).2 = (processUser env).2 ++ (runBatch rest).2 := by
  have hp1 : pollLoop env.beforeXP 15 env.poll1 = none := pollLoop_eq_none _ _ _ h1
  have hp2 : pollLoop env.beforeXP 10 env.poll2 = none := pollLoop_eq_none _ _ _ h2
  have hmain : processUser env =
      ([{ opId := env.opIds 0, amount := 1, value := SEND_VALUE },
        { opId := env.opIds 1, amount := 1, value := SEND_VALUE + EXTRA_GAS }],
       [{ opId := env.opIds 1, amount := 1, status := "failed" }]) := by
    simp only [processUser, hp1, hp2]
  refine ⟨hmain, ?_, by decide, ?_, rfl⟩
  · rw [hmain]
    simp
    exact fun h => hfresh h.symm
  · simp only [processUser]
    rw [← pollLoop_eq_take, ← pollLoop_eq_take]

/-- C4 witness: a run whose polls all fail produces the two
submissions with escalating value and the single failed row. -/
theorem c4_escalated_retry_witness :
    ((fun i : Nat => i) 1 ≠ (fun i : Nat => i) 0) ∧
    processUser { opIds := fun i => i, beforeXP := 0, poll1 := [], poll2 := [] } =
      ([{ opId := 0, amount := 1, value := SEND_VALUE },
        { opId := 1, amount := 1, value := SEND_VALUE + EXTRA_GAS }],
       [{ opId := 1, amount := 1, status := "failed" }]) :=
  ⟨by decide,
    (c4_escalated_retry { opIds := fun i => i, beforeXP := 0, poll1 := [], poll2 := [] } []
      (by decide) (by simp) (by simp)).1⟩

theorem addXP_ok_inversion (hash : Nat → Nat) (raw : Option Storage) (now : Int)
    (sender user amount : Nat) (raw' : Option Storage)
    (h : recv_internal hash raw now sender (.more OP_ADD_XP user amount) = .ok raw') :
    ∃ st o, raw = some st ∧ st.owner = some o ∧
      (st.last_op_time ≤ 0 ∨ MIN_TIMEOUT ≤ now - st.last_op_time) ∧
      raw' = some { owner := some o, version := st.version, last_op_time := now,
                    balances := dictSet st.balances (hash user)
                      ((dictGet st.balances (hash user)).getD 0 + amount) } := by
  cases raw with
  | none =>
      exfalso
      simp [recv_internal, load_state] at h
  | some st =>
      cases hso : st.owner with
      | none =>
          exfalso
          simp [recv_internal, load_state, hso] at h
      | some o =>
          rw [recv_addXP_eval hash st o now sender user amount hso] at h
          by_cases hs : hash sender = hash o
          · rw [if_pos hs] at h
            by_cases hc : st.last_op_time > 0 ∧ ¬ (now - st.last_op_time ≥ MIN_TIMEOUT)
            · rw [if_pos hc] at h
              exact absurd h (by simp)
            · rw [if_neg hc] at h
              by_cases hov : ¬ ((dictGet st.balances (hash user)).getD 0 + amount ≤ U64_MAX)
              · rw [if_pos hov] at h
                exact absurd h (by simp)
              · rw [if_neg hov] at h
                unfold store_state at h
                by_cases hr : st.version < 2 ^ 16 ∧ 0 ≤ now ∧ now < 2 ^ 32
                · rw [if_pos hr] at h
                  simp only [] at h
                  refine ⟨st, o, rfl, hso, by omega, ?_⟩
                  injection h with h2
                  exact h2.symm
                · rw [if_neg hr] at h
                  exact absurd h (by simp)
          · rw [if_neg hs] at h
            exact absurd h (by simp)

theorem nextState_of_not_accepted (hash : Nat → Nat) (st : Storage) (o : Nat) (e : Event)
    (ho : st.owner = some o) (hna : acceptsAddXP hash (some st) e = false) :
    nextState hash (some st) e = some st := by
  obtain ⟨now, sender, body⟩ := e
  cases body with
  | empty =>
      simp [nextState, recv_internal, load_state, ho]
  | short op =>
      simp [nextState, recv_internal]
  | more op user amount =>
      by_cases hop : op = OP_ADD_XP
      · subst hop
        unfold nextState
        cases hr : recv_internal hash (some st) now sender (.more OP_ADD_XP user amount) with
        | ok raw' =>
            exfalso
            simp [acceptsAddXP, hr] at hna
        | error e' => rfl
      · unfold nextState
        simp [recv_internal, hop]

theorem accepts_inversion (hash : Nat → Nat) (raw0 : Option Storage) (e : Event)
    (hacc : acceptsAddXP hash raw0 e = true) :
    ∃ st o st', raw0 = some st ∧ st.owner = some o ∧
      nextState hash raw0 e = some st' ∧ st'.owner = some o ∧
      st'.last_op_time = e.now ∧
      (st.last_op_time ≤ 0 ∨ st.last_op_time + MIN_TIMEOUT ≤ e.now) := by
  obtain ⟨now, sender, body⟩ := e
  cases body with
  | empty => simp [acceptsAddXP] at hacc
  | short op => simp [acceptsAddXP] at hacc
  | more op user amount =>
      simp only [acceptsAddXP, Bool.and_eq_true, beq_iff_eq] at hacc
      obtain ⟨hop, hrec⟩ := hacc
      subst hop
      cases hr : recv_internal hash raw0 now sender (.more OP_ADD_XP user amount) with
      | error e' => rw [hr] at hrec; simp at hrec
      | ok raw' =>
          obtain ⟨st, o, hraw, ho, hcool, hshape⟩ :=
            addXP_ok_inversion hash raw0 now sender user amount raw' hr
          refine ⟨st, o,
            { owner := some o, version := st.version, last_op_time := now,
              balances := dictSet st.balances (hash user)
                ((dictGet st.balances (hash user)).getD 0 + amount) },
            hraw, ho, ?_, rfl, rfl,
            by show st.last_op_time ≤ 0 ∨ st.last_op_time + MIN_TIMEOUT ≤ now; omega⟩
          unfold nextState
          rw [hr, hshape]

theorem acceptedTimes_lower_bound (hash : Nat → Nat) (events : List Event) :
    ∀ (st : Storage) (o : Nat), st.owner = some o → 0 < st.last_op_time →
      (∀ e ∈ events, 0 < e.now) →
      ∀ t ∈ acceptedTimes hash (some st) events, st.last_op_time + MIN_TIMEOUT ≤ t := by
  induction events with
  | nil =>
      intro st o ho hpos hev t ht
      simp [acceptedTimes] at ht
  | cons e rest ih =>
      intro st o ho hpos hev t ht
      have hevr : ∀ x ∈ rest, 0 < x.now := fun x hx => hev x (List.mem_cons_of_mem _ hx)
      have hM : MIN_TIMEOUT = (60 : Int) := rfl
      by_cases hacc : acceptsAddXP hash (some st) e = true
      · obtain ⟨st0, o0, st', hraw, ho0, hnext, hos, hlast, hgap⟩ :=
          accepts_inversion hash (some st) e hacc
        injection hraw with hst0
        subst hst0
        have hgap2 : st.last_op_time + MIN_TIMEOUT ≤ e.now := by omega
        rw [acceptedTimes, if_pos hacc, hnext] at ht
        rcases List.mem_cons.mp ht with hteq | htail
        · omega
        · have hpos' : 0 < st'.last_op_time := by
            rw [hlast]; exact hev e (List.mem_cons_self _ _)
          have hbound := ih st' o0 hos hpos' hevr t htail
          omega
      · have hfalse : acceptsAddXP hash (some st) e = false := by
          revert hacc; cases acceptsAddXP hash (some st) e <;> simp
        rw [acceptedTimes, if_neg hacc,
          nextState_of_not_accepted hash st o e ho hfalse] at ht
        exact ih st o ho hpos hevr t ht

theorem acceptedTimes_pairwise (hash : Nat → Nat) (events : List Event) :
    ∀ raw0 : Option Storage, (∀ e ∈ events, 0 < e.now) →
      List.Pairwise (fun t t' => t + MIN_TIMEOUT ≤ t') (acceptedTimes hash raw0 events) := by
  induction events with
  | nil =>
      intro raw0 hev
      simp [acceptedTimes]
  | cons e rest ih =>
      intro raw0 hev
      have hevr : ∀ x ∈ rest, 0 < x.now := fun x hx => hev x (List.mem_cons_of_mem _ hx)
      by_cases hacc : acceptsAddXP hash raw0 e = true
      · obtain ⟨st, o, st', hraw, ho, hnext, hos, hlast, hgap⟩ :=
          accepts_inversion hash raw0 e hacc
        rw [acceptedTimes, if_pos hacc, hnext]
        refine List.Pairwise.cons ?_ (ih (some st') hevr)
        intro t ht
        have hpos' : 0 < st'.last_op_time := by
          rw [hlast]; exact hev e (List.mem_cons_self _ _)
        have hbound := acceptedTimes_lower_bound hash rest st' o hos hpos' hevr t ht
        have hM : MIN_TIMEOUT = (60 : Int) := rfl
        omega
      · rw [acceptedTimes, if_neg hacc]
        exact ih (nextState hash raw0 e) hevr

/-- C3: while `last_op_time` is positive and the cooldown has not
elapsed, every owner-sent AddXP is rejected with TooSoon whatever user
it targets; every accepted AddXP stores `last_op_time = now`; and along
any message sequence with positive block times, from any starting
storage, the accepted AddXP writes are pairwise at least `MIN_TIMEOUT`
apart. -/
theorem c3_cooldown_serializes :
    (∀ (hash : Nat → Nat) (st : Storage) (o : Nat) (now : Int) (sender user amount : Nat),
        st.owner = some o → hash sender = hash o →
        0 < st.last_op_time → now - st.last_op_time < MIN_TIMEOUT →
        recv_internal hash (some st) now sender (.more OP_ADD_XP user amount) =
          .error ERR_TOO_SOON) ∧
    (∀ (hash : Nat → Nat) (raw raw' : Option Storage) (now : Int) (sender user amount : Nat),
        recv_internal hash raw now sender (.more OP_ADD_XP user amount) = .ok raw' →
        ∃ st', raw' = some st' ∧ st'.last_op_time = now) ∧
    (∀ (hash : Nat → Nat) (raw0 : Option Storage) (events : List Event),
        (∀ e ∈ events, 0 < e.now) →
        List.Pairwise (fun t t' => t + MIN_TIMEOUT ≤ t') (acceptedTimes hash raw0 events)) := by
  refine ⟨?_, ?_, ?_⟩
  · intro hash st o now sender user amount ho hs hpos hlt
    rw [recv_addXP_eval hash st o now sender user amount ho, if_pos hs,
      if_pos ⟨hpos, by omega⟩]
  · intro hash raw raw' now sender user amount h
    obtain ⟨st, o, hraw, ho, hcool, hshape⟩ :=
      addXP_ok_inversion hash raw now sender user amount raw' h
    exact ⟨_, hshape, rfl⟩
  · intro hash raw0 events hev
    exact acceptedTimes_pairwise hash events raw0 hev

/-- C3 witness: a TooSoon rejection 30 seconds after a write, an
accepted write stamping the block time, and a trace from a freshly
deployed storage whose two accepted writes are 60 seconds apart. -/
theorem c3_cooldown_serializes_witness :
    ((0 : Int) < 100 ∧ (130 : Int) - 100 < MIN_TIMEOUT ∧
      recv_internal (fun a => a)
        (some { owner := some 1, version := 1, last_op_time := 100, balances := [] })
        130 1 (.more OP_ADD_XP 5 3) = .error ERR_TOO_SOON) ∧
    (∃ st', (some { owner := some 1, version := 1, last_op_time := 100,
                    balances := [(5, 3)] } : Option Storage) = some st' ∧
      st'.last_op_time = 100) ∧
    List.Pairwise (fun t t' => t + MIN_TIMEOUT ≤ t')
      (acceptedTimes (fun a => a)
        (some { owner := some 1, version := 1, last_op_time := 0, balances := [] })
        [⟨100, 1, .more OP_ADD_XP 5 3⟩, ⟨160, 1, .more OP_ADD_XP 5 2⟩]) := by
  refine ⟨⟨by decide, by decide, ?_⟩, ?_, ?_⟩
  · exact c3_cooldown_serializes.1 (fun a => a)
      { owner := some 1, version := 1, last_op_time := 100, balances := [] }
      1 130 1 5 3 rfl rfl (by decide) (by decide)
  · exact c3_cooldown_serializes.2.1 (fun a => a)
      (some { owner := some 1, version := 1, last_op_time := 0, balances := [] })
      (some { owner := some 1, version := 1, last_op_time := 100, balances := [(5, 3)] })
      100 1 5 3 (by decide)
  · exact c3_cooldown_serializes.2.2 (fun a => a)
      (some { owner := some 1, version := 1, last_op_time := 0, balances := [] })
      [⟨100, 1, .more OP_ADD_XP 5 3⟩, ⟨160, 1, .more OP_ADD_XP 5 2⟩]
      (by decide)
